import Mathlib

/-!
Verification of the auto-kubernetes-client core against its specification.

The development shallowly embeds the discovery-driven client builder and the
watch-stream decoder of the source (src/index.js revision, src/utils.js):

* the newline-delimited JSON watch decoder (`through2` transform and flush),
* the Status-failure classification in `k8sRequest`,
* the `calculateApiName` resolver,
* the resource API builder dispatch (`createApiFromResources`, `createResourceAPI`,
  `api.ns`) and the `patch` operation of a singleton resource handle.

Byte chunks are modelled as `List Char` (newline-delimited UTF-8 text; the
source decodes complete lines only, so a character-level model is faithful),
JavaScript objects as insertion-ordered association lists, and `JSON.parse`
as a small executable parser `jsonParse` (an external Node builtin, modelled
to the JSON grammar: in particular the empty string is not valid JSON).
-/

/-- JSON values as produced by decoding a response or a watch line. -/
inductive Json where
  | null : Json
  | bool (b : Bool) : Json
  | num (n : Int) : Json
  | str (s : String) : Json
  | arr (elems : List Json) : Json
  | obj (members : List (String × Json)) : Json

/-- First-match lookup in an insertion-ordered member list. -/
def lookupMember : List (String × Json) → String → Option Json
  | [], _ => none
  | (k, v) :: rest, key => if k = key then some v else lookupMember rest key

/-- Property lookup on a JSON value: JavaScript `v[key]`, which is defined
only when `v` is an object (otherwise the access yields `undefined`). -/
def jsonGet : Json → String → Option Json
  | Json.obj members, key => lookupMember members key
  | _, _ => none

/-- Skip JSON insignificant whitespace. -/
def skipWs : List Char → List Char
  | [] => []
  | c :: cs => if c = ' ' ∨ c = '\n' ∨ c = '\t' ∨ c = '\r' then skipWs cs else c :: cs

/-- Parse the remainder of a JSON string literal (after the opening quote),
returning the decoded characters and the input following the closing quote. -/
def parseStrLit : List Char → Option (List Char × List Char)
  | [] => none
  | '"' :: rest => some ([], rest)
  | '\\' :: rest =>
    match rest with
    | [] => none
    | e :: rest2 =>
      let dec : Option Char :=
        if e = '"' then some '"'
        else if e = '\\' then some '\\'
        else if e = '/' then some '/'
        else if e = 'n' then some '\n'
        else if e = 't' then some '\t'
        else if e = 'r' then some '\r'
        else none
      match dec with
      | none => none
      | some d =>
        match parseStrLit rest2 with
        | some (cs, r) => some (d :: cs, r)
        | none => none
  | c :: rest =>
    match parseStrLit rest with
    | some (cs, r) => some (c :: cs, r)
    | none => none

/-- Split a leading run of decimal digits from the input. -/
def takeDigits : List Char → List Char × List Char
  | [] => ([], [])
  | c :: cs =>
    if c.isDigit then
      let r := takeDigits cs
      (c :: r.1, r.2)
    else ([], c :: cs)

/-- Numeric value of a digit run. -/
def digitsVal (ds : List Char) : Nat :=
  ds.foldl (fun a c => a * 10 + (c.toNat - 48)) 0

/-- One-pass JSON value reader, fuel-indexed for termination.
`none` mode parses a single JSON value; `some acc` mode parses the members of
an object whose already-read members are `acc`. Arrays are not produced by the
Kubernetes watch protocol and are rejected; numbers are integers. -/
def pjF : Nat → Option (List (String × Json)) → List Char → Option (Json × List Char)
  | 0, _, _ => none
  | fuel + 1, none, s =>
    match skipWs s with
    | [] => none
    | c :: rest =>
      if c = '"' then
        match parseStrLit rest with
        | some (cs, r) => some (Json.str (String.mk cs), r)
        | none => none
      else if c = '\x7b' then
        match skipWs rest with
        | '\x7d' :: r2 => some (Json.obj [], r2)
        | _ => pjF fuel (some []) rest
      else if c = 't' then
        match rest with
        | 'r' :: 'u' :: 'e' :: r => some (Json.bool true, r)
        | _ => none
      else if c = 'f' then
        match rest with
        | 'a' :: 'l' :: 's' :: 'e' :: r => some (Json.bool false, r)
        | _ => none
      else if c = 'n' then
        match rest with
        | 'u' :: 'l' :: 'l' :: r => some (Json.null, r)
        | _ => none
      else if c = '-' then
        match takeDigits rest with
        | ([], _) => none
        | (ds, r) => some (Json.num (-(digitsVal ds : Int)), r)
      else if c.isDigit then
        let r := takeDigits rest
        some (Json.num (digitsVal (c :: r.1) : Int), r.2)
      else none
  | fuel + 1, some acc, s =>
    match skipWs s with
    | '"' :: r1 =>
      match parseStrLit r1 with
      | some (key, r2) =>
        match skipWs r2 with
        | ':' :: r3 =>
          match pjF fuel none r3 with
          | some (v, r4) =>
            match skipWs r4 with
            | ',' :: r5 => pjF fuel (some (acc ++ [(String.mk key, v)])) r5
            | '\x7d' :: r5 => some (Json.obj (acc ++ [(String.mk key, v)]), r5)
            | _ => none
          | none => none
        | _ => none
      | none => none
    | _ => none

/-- Model of `JSON.parse` (Node builtin, external to the repository): parse a
complete JSON text; any leftover non-whitespace input, or an empty input, is
an error. Each recursion step of `pjF` consumes at least one character, so
`s.length + 1` fuel always suffices. -/
def jsonParse (s : List Char) : Except String Json :=
  match pjF (s.length + 1) none s with
  | some (j, rest) =>
    if (skipWs rest).isEmpty then Except.ok j
    else Except.error "Unexpected non-whitespace character after JSON"
  | none => Except.error "Unexpected end of JSON input"

/-- Split the chunk at its first newline: `(prefixChars, none)` when the chunk
contains no newline (`indexOf` returned `-1`), else the characters before the
first newline and the characters after it.  Mirrors the
`chunk.indexOf('\n', startIndex)` scan of the transform loop. -/
def breakNl : List Char → List Char × Option (List Char)
  | [] => ([], none)
  | c :: cs =>
    if c = '\n' then ([], some cs)
    else
      let r := breakNl cs
      (c :: r.1, r.2)

/-- One `through2` transform step of `parseJSONStream` (src lines 147-175),
fuel-indexed: given the retained buffer and an incoming chunk, emit one decoded
event per newline found in the chunk (the first prefixed by the buffer), and
either fail the stream on a `JSON.parse` error or return the new buffer (the
bytes after the last newline).  Each recursion consumes the newline, so
`chunk.length + 1` fuel always suffices. -/
def transformChunkF (parse : List Char → Except String Json) :
    Nat → List Char → List Char → List Json × Except String (List Char)
  | 0, buffer, chunk => ([], Except.ok (buffer ++ chunk))
  | fuel + 1, buffer, chunk =>
    match breakNl chunk with
    | (_, none) => ([], Except.ok (buffer ++ chunk))
    | (line, some rest) =>
      match parse (buffer ++ line) with
      | Except.error e => ([], Except.error e)
      | Except.ok j =>
        let r := transformChunkF parse fuel [] rest
        (j :: r.1, r.2)

/-- One transform step of `parseJSONStream` with adequate fuel. -/
def transformChunk (parse : List Char → Except String Json)
    (buffer chunk : List Char) : List Json × Except String (List Char) :=
  transformChunkF parse (chunk.length + 1) buffer chunk

/-- The flush callback of `parseJSONStream` (src lines 176-183): on stream end
a non-empty buffer is decoded and emitted as one final event. -/
def flushDec (parse : List Char → Except String Json) (buffer : List Char) :
    List Json × Option String :=
  match buffer with
  | [] => ([], none)
  | _ =>
    match parse buffer with
    | Except.ok j => ([j], none)
    | Except.error e => ([], some e)

/-- Run the watch decoder over a whole chunked stream: feed every chunk
through the transform in order, stop (with the error surfaced to the consumer)
at the first decode failure, and flush the residual buffer at stream end.
The result is the ordered event sequence together with the terminating decode
error, if any. -/
def runDecoder (parse : List Char → Except String Json) :
    List Char → List (List Char) → List Json × Option String
  | buffer, [] => flushDec parse buffer
  | buffer, chunk :: rest =>
    match transformChunk parse buffer chunk with
    | (js, Except.error e) => (js, some e)
    | (js, Except.ok b2) =>
      let r := runDecoder parse b2 rest
      (js ++ r.1, r.2)

/-- The two-line ADDED/MODIFIED watch payload from the specification. -/
def watchTwoLinePayload : List Char :=
  "\x7b\"type\":\"ADDED\",\"object\":\x7b\"a\":1\x7d\x7d\n\x7b\"type\":\"MODIFIED\",\"object\":\x7b\"a\":2\x7d\x7d\n".toList

/-- The decoded ADDED event of the two-line payload. -/
def addedEvent : Json :=
  Json.obj [("type", Json.str "ADDED"), ("object", Json.obj [("a", Json.num 1)])]

/-- The decoded MODIFIED event of the two-line payload. -/
def modifiedEvent : Json :=
  Json.obj [("type", Json.str "MODIFIED"), ("object", Json.obj [("a", Json.num 2)])]

/-- The terminal DELETED chunk without trailing newline from the specification. -/
def deletedPayload : List Char :=
  "\x7b\"type\":\"DELETED\",\"object\":\x7b\"a\":3\x7d\x7d".toList

/-- The decoded DELETED event. -/
def deletedEvent : Json :=
  Json.obj [("type", Json.str "DELETED"), ("object", Json.obj [("a", Json.num 3)])]

/-- Complete (newline-terminated) lines of a character stream and the
unterminated tail, fuel-indexed.  This is the reference line decomposition the
decoder is compared against. -/
def splitNlF : Nat → List Char → List (List Char) × List Char
  | 0, s => ([], s)
  | fuel + 1, s =>
    match breakNl s with
    | (_, none) => ([], s)
    | (line, some rest) =>
      let r := splitNlF fuel rest
      (line :: r.1, r.2)

/-- Complete lines of a character stream and the unterminated tail. -/
def splitNl (s : List Char) : List (List Char) × List Char :=
  splitNlF (s.length + 1) s

/-- Reference decoding of a line decomposition: parse every complete line in
order, stop at the first parse error, and finally flush the unterminated tail
(if non-empty) as one last event. -/
def emitAll (parse : List Char → Except String Json) :
    List (List Char) → List Char → List Json × Option String
  | [], tail => flushDec parse tail
  | l :: ls, tail =>
    match parse l with
    | Except.error e => ([], some e)
    | Except.ok j =>
      let r := emitAll parse ls tail
      (j :: r.1, r.2)

/-- Reference decoding of a line decomposition whose first line (or, when no
complete line exists, whose tail) is still prefixed by a retained buffer. -/
def emitAllB (parse : List Char → Except String Json) (b : List Char) :
    List (List Char) → List Char → List Json × Option String
  | [], tail => flushDec parse (b ++ tail)
  | l :: ls, tail =>
    match parse (b ++ l) with
    | Except.error e => ([], some e)
    | Except.ok j =>
      let r := emitAll parse ls tail
      (j :: r.1, r.2)

/-- Combine one transform result with the end-of-stream flush: a transform
error terminates the stream, otherwise the surviving buffer is flushed. -/
def runOut (parse : List Char → Except String Json)
    (t : List Json × Except String (List Char)) : List Json × Option String :=
  match t.2 with
  | Except.error e => (t.1, some e)
  | Except.ok b2 =>
    let fl := flushDec parse b2
    (t.1 ++ fl.1, fl.2)

/-! ### API name resolver (src/utils.js, `calculateApiName`) -/

/-- JavaScript `s.indexOf(c) !== -1`, computed on the character list. -/
def strContainsChar (s : String) (c : Char) : Bool :=
  s.data.contains c

/-- JavaScript `s.substring(0, s.indexOf('/'))`: the characters before the
first `'/'`. -/
def strBeforeSlash (s : String) : String :=
  String.mk (s.data.takeWhile (fun c => c ≠ '/'))

/-- JavaScript `s.toLowerCase()`, computed on the character list. -/
def strToLower (s : String) : String :=
  String.mk (s.data.map Char.toLower)

/-- The function `calculateApiName` from src/utils.js.  `versionName` is an optional
parameter; `none` models an absent (`undefined`) argument.  JavaScript string
truthiness is expanded explicitly: both an absent argument and the empty
string are falsy, so `if (groupName)` becomes a `= ""` test and
`versionName ? a : b` / `versionName || ''` become `match`/`= ""` tests. -/
def calculateApiName (groupName : String) (versionName : Option String) : String :=
  if strContainsChar groupName '/' = false then
    if groupName = "" then
      match versionName with
      | some v => if v = "" then "" else v
      | none => ""
    else
      match versionName with
      | some v => if v = "" then groupName else groupName ++ "/" ++ v
      | none => groupName
  else
    match versionName with
    | some v =>
      if v = "" then groupName
      else strBeforeSlash groupName ++ "/" ++ v
    | none => groupName

/-! ### Status translator (src/index.js, `k8sRequest` callback) -/

/-- A decoded response body: either unstructured text (`typeof data ===
'string'`) or a structured JSON value. -/
inductive RespBody where
  | strData (s : String) : RespBody
  | jsonData (j : Json) : RespBody

/-- JavaScript `v === 'lit'` for a possibly-undefined property value. -/
def isStrVal (o : Option Json) (s : String) : Bool :=
  match o with
  | some (Json.str s2) => s2 = s
  | _ => false

/-- The Status-shaped failure synthesized by `k8sRequest` for an unstructured
text body (src lines 98-106), field for field in source order. -/
def synthStatus (statusCode : Int) (statusMessage : String) (bodyText : String) : Json :=
  Json.obj [("apiVersion", Json.str "v1"),
            ("code", Json.num statusCode),
            ("kind", Json.str "Status"),
            ("message", Json.str bodyText),
            ("metadata", Json.obj []),
            ("reason", Json.str statusMessage),
            ("status", Json.str "Failure")]

/-- The classification step of the `k8sRequest` callback (src lines 91-116):
with `cooked = !extraOptions.rawResponse`, a text body is first wrapped into a
synthesized Status; a body whose `kind` is `"Status"` and whose `status` is
`"Failure"` rejects the promise with that status object (the
`Object.assign(maybeStatus, new Error(...))` copies no enumerable properties,
so the rejection value is the status object itself, carrying its own `message`
attribute); anything else, and every body when `rawResponse` was requested,
resolves unchanged. -/
def k8sClassify (rawResponse : Bool) (statusCode : Int) (statusMessage : String)
    (data : RespBody) : Except Json RespBody :=
  let cooked := !rawResponse
  if cooked then
    let maybeStatus : Json :=
      match data with
      | RespBody.strData s => synthStatus statusCode statusMessage s
      | RespBody.jsonData j => j
    if isStrVal (jsonGet maybeStatus "kind") "Status"
        && isStrVal (jsonGet maybeStatus "status") "Failure" then
      Except.error maybeStatus
    else Except.ok data
  else Except.ok data

/-! ### Resource API builder (src/index.js, `createApiFromResources`) -/

/-- One entry of a group-version's resource catalog. -/
structure ResourceDescriptor where
  name : String
  kind : String
  namespaced : Bool
deriving DecidableEq

/-- A value attached to the built API surface: the collection handle produced
by `createResourceCollection`, or the singleton factory closing over
`createResource`; each closes over its descriptor and path segment. -/
inductive ApiEntry where
  | collectionHandle (r : ResourceDescriptor) (pathPfx : String) : ApiEntry
  | singletonFactory (r : ResourceDescriptor) (pathPfx : String) : ApiEntry
deriving DecidableEq

/-- JavaScript property assignment `o[k] = v` on an insertion-ordered object:
an existing key keeps its position and gets the new value, a new key is
appended. -/
def jsSet {α : Type} : List (String × α) → String → α → List (String × α)
  | [], k, v => [(k, v)]
  | (k2, v2) :: rest, k, v =>
    if k2 = k then (k2, v) :: rest else (k2, v2) :: jsSet rest k v

/-- JavaScript property read `o[k]`. -/
def jsGet {α : Type} : List (String × α) → String → Option α
  | [], _ => none
  | (k2, v2) :: rest, k => if k2 = k then some v2 else jsGet rest k

/-- JavaScript `Object.assign(target, source)`: assign every property of `source` onto
`target` in order. -/
def jsAssign {α : Type} (target source : List (String × α)) : List (String × α) :=
  source.foldl (fun acc kv => jsSet acc kv.1 kv.2) target

/-- The source's `createResourceAPI` (src lines 313-318): one object literal holding the
collection handle under the lower-cased plural name and the singleton factory
under the lower-cased kind, evaluated in that order (so on key collision the
later, kind-keyed member wins). -/
def createResourceAPI (r : ResourceDescriptor) (pathPfx : String) :
    List (String × ApiEntry) :=
  jsSet (jsSet [] (strToLower r.name) (ApiEntry.collectionHandle r pathPfx))
    (strToLower r.kind) (ApiEntry.singletonFactory r pathPfx)

/-- The per-descriptor dispatch of the `createApiFromResources` reduce
(src lines 346-362) over the pair (api surface, nsResources): a name holding a
sub-resource separator is ignored, a namespaced descriptor is registered in
`nsResources` only, anything else is assigned onto the surface. -/
def apiBuildStep (acc : List (String × ApiEntry) × List (String × ResourceDescriptor))
    (r : ResourceDescriptor) :
    List (String × ApiEntry) × List (String × ResourceDescriptor) :=
  if strContainsChar r.name '/' then acc
  else if r.namespaced then (acc.1, jsSet acc.2 r.name r)
  else (jsAssign acc.1 (createResourceAPI r ""), acc.2)

/-- The resource-entry part of `createApiFromResources`: fold the dispatch over
the catalog, starting from an empty surface and an empty `nsResources`
registry (the `name`/`preferred`/`version`/`ns`/`resource` meta members of the
api object are not resource entries and are modelled separately). -/
def createApiFromResources (resources : List ResourceDescriptor) :
    List (String × ApiEntry) × List (String × ResourceDescriptor) :=
  resources.foldl apiBuildStep ([], [])

/-- The source's `api.ns(namespace)` (src lines 328-333): rebuild the resource API of every
registered namespaced descriptor, in registration order, under the
`namespaces/<namespace>` path segment. -/
def nsApi (nsResources : List (String × ResourceDescriptor)) (nsName : String) :
    List (String × ApiEntry) :=
  nsResources.foldl
    (fun result kv => jsAssign result (createResourceAPI kv.2 ("namespaces/" ++ nsName)))
    []

/-! ### Singleton `patch` (src/index.js, `createResource`) -/

/-- The default patch media type. -/
def strategicMergePatchType : String := "application/strategic-merge-patch+json"

/-- The singleton resource path built by `createResource` (src lines 220-226):
`groupPath + '/' (+ pathPrefix + '/') + resource.name + '/' + name`. -/
def resourcePathFor (groupPath pathPfx resourceName nm : String) : String :=
  let p1 := groupPath ++ "/"
  let p2 := if pathPfx ≠ "" then p1 ++ pathPfx ++ "/" else p1
  p2 ++ resourceName ++ "/" ++ nm

/-- The second positional argument of `patch`: either a content-type string or
a query-parameter object (`typeof contentType === 'object'`). -/
inductive CtArg where
  | ctStr (s : String) : CtArg
  | qsObj (q : List (String × String)) : CtArg

/-- The request issued by a singleton handle's `patch`. -/
structure PatchRequest where
  path : String
  method : String
  contentTypeHeader : String
  body : Json
  qs : List (String × String)

/-- The operation `patch(object, contentType, qs)` of `createResource` (src lines 284-302):
an omitted second argument defaults to the strategic-merge-patch media type;
if the second argument is an object it is the query and the content type is
the strategic-merge-patch default; the request is a PATCH to the singleton
path with the `content-type` header set to the selected type. -/
def patchCall (groupPath pathPfx resourceName nm : String) (object : Json)
    (contentType : Option CtArg) (qs : List (String × String)) : PatchRequest :=
  let given := contentType.getD (CtArg.ctStr strategicMergePatchType)
  let real : List (String × String) × String :=
    match given with
    | CtArg.qsObj q => (q, strategicMergePatchType)
    | CtArg.ctStr s => (qs, s)
  { path := resourcePathFor groupPath pathPfx resourceName nm,
    method := "PATCH",
    contentTypeHeader := real.2,
    body := object,
    qs := real.1 }

/-- A structured Status-Failure body carrying message `"x"`. -/
def statusBodyX : Json :=
  Json.obj [("kind", Json.str "Status"), ("status", Json.str "Failure"),
            ("message", Json.str "x")]

/-- The namespaced pods descriptor from the specification. -/
def podsDescriptor : ResourceDescriptor :=
  { name := "pods", kind := "Pod", namespaced := true }

/-- A descriptor whose lower-cased plural name equals its lower-cased kind. -/
def endpointsDescriptor : ResourceDescriptor :=
  { name := "endpoints", kind := "Endpoints", namespaced := true }

/-! ### Properties of the newline scan -/

theorem breakNl_none_eq {s p : List Char} (h : breakNl s = (p, none)) : p = s := by
  induction s generalizing p with
  | nil =>
    simp [breakNl] at h
    simp [h]
  | cons c cs ih =>
    by_cases hc : c = '\n'
    · simp [breakNl, hc] at h
    · simp [breakNl, hc] at h
      rcases h with ⟨h1, h2⟩
      have := ih (p := (breakNl cs).1) (by rw [← h2])
      rw [← h1, this]

theorem breakNl_append_some {s p r : List Char} (t : List Char)
    (h : breakNl s = (p, some r)) : breakNl (s ++ t) = (p, some (r ++ t)) := by
  induction s generalizing p with
  | nil => simp [breakNl] at h
  | cons c cs ih =>
    by_cases hc : c = '\n'
    · simp [breakNl, hc] at h ⊢
      simp [h.1, h.2]
    · simp [breakNl, hc] at h ⊢
      rcases h with ⟨h1, h2⟩
      have := ih (p := (breakNl cs).1) (by rw [← h2])
      rw [this]
      simp [← h1]

theorem breakNl_append_none {s p : List Char} (t : List Char)
    (h : breakNl s = (p, none)) :
    breakNl (s ++ t) = (s ++ (breakNl t).1, (breakNl t).2) := by
  induction s generalizing p with
  | nil => simp
  | cons c cs ih =>
    by_cases hc : c = '\n'
    · simp [breakNl, hc] at h
    · simp [breakNl, hc] at h ⊢
      rcases h with ⟨_, h2⟩
      have hr := ih (p := (breakNl cs).1) (by rw [← h2])
      rw [hr]
      simp

theorem breakNl_some_length {s p r : List Char} (h : breakNl s = (p, some r)) :
    r.length < s.length := by
  induction s generalizing p r with
  | nil => simp [breakNl] at h
  | cons c cs ih =>
    by_cases hc : c = '\n'
    · simp [breakNl, hc] at h
      rw [← h.2]
      simp
    · simp [breakNl, hc] at h
      rcases h with ⟨_, h2⟩
      have := ih (p := (breakNl cs).1) (r := r) (by rw [← h2])
      simp
      omega

theorem breakNl_no_newline {s : List Char} (hs : ∀ c ∈ s, c ≠ '\n') (t : List Char) :
    breakNl (s ++ '\n' :: t) = (s, some t) := by
  induction s with
  | nil => simp [breakNl]
  | cons c cs ih =>
    have hc : c ≠ '\n' := hs c (by simp)
    simp [breakNl, hc]
    constructor
    · rw [ih (fun c hc => hs c (by simp [hc]))]
    · rw [ih (fun c hc => hs c (by simp [hc]))]

/-! ### Fuel adequacy and chunk-concatenation lemmas for the transform -/

theorem transformChunkF_fuel (parse : List Char → Except String Json) :
    ∀ (f1 f2 : Nat) (b c : List Char), c.length < f1 → c.length < f2 →
      transformChunkF parse f1 b c = transformChunkF parse f2 b c := by
  intro f1
  induction f1 with
  | zero => intro f2 b c h1 _; exact absurd h1 (Nat.not_lt_zero _)
  | succ g ih =>
    intro f2 b c h1 h2
    cases f2 with
    | zero => exact absurd h2 (Nat.not_lt_zero _)
    | succ g2 =>
      rcases hb : breakNl c with ⟨p, o⟩
      cases o with
      | none => simp only [transformChunkF, hb]
      | some rest =>
        have hlen := breakNl_some_length hb
        simp only [transformChunkF, hb]
        cases hp : parse (b ++ p) with
        | error e => rfl
        | ok j =>
          rw [ih g2 [] rest (by omega) (by omega)]

theorem transformChunkF_append_error (parse : List Char → Except String Json) :
    ∀ (f : Nat) (b c1 c2 js : _) (e : String), c1.length + c2.length < f →
      transformChunkF parse f b c1 = (js, Except.error e) →
      transformChunkF parse f b (c1 ++ c2) = (js, Except.error e) := by
  intro f
  induction f with
  | zero => intro b c1 c2 js e h1 _; exact absurd h1 (Nat.not_lt_zero _)
  | succ g ih =>
    intro b c1 c2 js e h1 h2
    rcases hb : breakNl c1 with ⟨p, o⟩
    cases o with
    | none =>
      simp only [transformChunkF, hb] at h2
      simp at h2
    | some rest =>
      have hlen := breakNl_some_length hb
      have hb2 := breakNl_append_some c2 hb
      simp only [transformChunkF, hb] at h2
      simp only [transformChunkF, hb2]
      cases hp : parse (b ++ p) with
      | error e2 =>
        rw [hp] at h2
        simp at h2
        simp [h2.1, h2.2]
      | ok j =>
        rw [hp] at h2
        simp at h2
        have heq : transformChunkF parse g [] rest =
            ((transformChunkF parse g [] rest).1, Except.error e) := by
          rw [← h2.2]
        have hrec := ih [] rest c2 (transformChunkF parse g [] rest).1 e (by omega) heq
        rw [hrec]
        simp [← h2.1]

theorem transformChunkF_append_ok (parse : List Char → Except String Json) :
    ∀ (f : Nat) (b c1 c2 js b2 : _), c1.length + c2.length < f →
      transformChunkF parse f b c1 = (js, Except.ok b2) →
      transformChunkF parse f b (c1 ++ c2) =
        (js ++ (transformChunkF parse f b2 c2).1, (transformChunkF parse f b2 c2).2) := by
  intro f
  induction f with
  | zero => intro b c1 c2 js b2 h1 _; exact absurd h1 (Nat.not_lt_zero _)
  | succ g ih =>
    intro b c1 c2 js b2 h1 h2
    rcases hb : breakNl c1 with ⟨p, o⟩
    cases o with
    | none =>
      have hpc : p = c1 := breakNl_none_eq hb
      subst hpc
      have hb2 := breakNl_append_none c2 hb
      simp only [transformChunkF, hb] at h2
      simp at h2
      rcases hc2 : breakNl c2 with ⟨p2, o2⟩
      cases o2 with
      | none =>
        simp only [transformChunkF, hb2, hc2]
        simp [← h2.1, ← h2.2, List.append_assoc]
      | some rest2 =>
        simp only [transformChunkF, hb2, hc2]
        have hassoc : b ++ (p ++ p2) = (b ++ p) ++ p2 := by simp
        rw [← h2.2, hassoc]
        cases hp : parse ((b ++ p) ++ p2) with
        | error e => simp [← h2.1]
        | ok j => simp [← h2.1]
    | some rest =>
      have hlen := breakNl_some_length hb
      have hb2 := breakNl_append_some c2 hb
      simp only [transformChunkF, hb] at h2
      rw [transformChunkF_fuel parse (g + 1) g b2 c2 (by omega) (by omega)]
      simp only [transformChunkF, hb2]
      cases hp : parse (b ++ p) with
      | error e =>
        rw [hp] at h2
        simp at h2
      | ok j =>
        rw [hp] at h2
        simp at h2
        have heq : transformChunkF parse g [] rest =
            ((transformChunkF parse g [] rest).1, Except.ok b2) := by
          rw [← h2.2]
        have hrec := ih [] rest c2 (transformChunkF parse g [] rest).1 b2 (by omega) heq
        rw [hrec]
        simp [← h2.1]

/-! ### Stream-level lemmas -/

theorem transformChunk_append_error {parse : List Char → Except String Json}
    {b c1 js e} (c2 : List Char)
    (h : transformChunk parse b c1 = (js, Except.error e)) :
    transformChunk parse b (c1 ++ c2) = (js, Except.error e) := by
  unfold transformChunk at h ⊢
  have h1 : transformChunkF parse ((c1 ++ c2).length + 1) b c1 = (js, Except.error e) := by
    rw [transformChunkF_fuel parse ((c1 ++ c2).length + 1) (c1.length + 1) b c1
      (by simp only [List.length_append]; omega) (by omega)]
    exact h
  exact transformChunkF_append_error parse _ b c1 c2 js e
    (by simp only [List.length_append]; omega) h1

theorem transformChunk_append_ok {parse : List Char → Except String Json}
    {b c1 js b2} (c2 : List Char)
    (h : transformChunk parse b c1 = (js, Except.ok b2)) :
    transformChunk parse b (c1 ++ c2) =
      (js ++ (transformChunk parse b2 c2).1, (transformChunk parse b2 c2).2) := by
  unfold transformChunk at h ⊢
  have h1 : transformChunkF parse ((c1 ++ c2).length + 1) b c1 = (js, Except.ok b2) := by
    rw [transformChunkF_fuel parse ((c1 ++ c2).length + 1) (c1.length + 1) b c1
      (by simp only [List.length_append]; omega) (by omega)]
    exact h
  have h2 := transformChunkF_append_ok parse ((c1 ++ c2).length + 1) b c1 c2 js b2
    (by simp only [List.length_append]; omega) h1
  rw [h2]
  rw [transformChunkF_fuel parse ((c1 ++ c2).length + 1) (c2.length + 1) b2 c2
    (by simp only [List.length_append]; omega) (by omega)]

theorem runDecoder_single (parse : List Char → Except String Json) (b s : List Char) :
    runDecoder parse b [s] = runOut parse (transformChunk parse b s) := by
  rcases ht : transformChunk parse b s with ⟨js, r⟩
  cases r with
  | error e => simp [runDecoder, ht, runOut]
  | ok b2 => simp [runDecoder, ht, runOut]

theorem runDecoder_cons_error {parse : List Char → Except String Json}
    {b c js e} (rest : List (List Char))
    (h : transformChunk parse b c = (js, Except.error e)) :
    runDecoder parse b (c :: rest) = (js, some e) := by
  simp only [runDecoder, h]

theorem runDecoder_cons_ok {parse : List Char → Except String Json}
    {b c js b2} (rest : List (List Char))
    (h : transformChunk parse b c = (js, Except.ok b2)) :
    runDecoder parse b (c :: rest) =
      (js ++ (runDecoder parse b2 rest).1, (runDecoder parse b2 rest).2) := by
  simp only [runDecoder, h]

theorem runDecoder_cons_join (parse : List Char → Except String Json) :
    ∀ (rest : List (List Char)) (b c : List Char),
      runDecoder parse b (c :: rest) = runDecoder parse b [c ++ rest.flatten] := by
  intro rest
  induction rest with
  | nil => intro b c; simp
  | cons c2 rest2 ih =>
    intro b c
    rcases ht : transformChunk parse b c with ⟨js, r⟩
    cases r with
    | error e =>
      have h2 := transformChunk_append_error (c2 :: rest2).flatten ht
      rw [runDecoder_cons_error (c2 :: rest2) ht]
      rw [runDecoder_cons_error [] h2]
    | ok b2 =>
      have h2 := transformChunk_append_ok (c2 :: rest2).flatten ht
      rcases hu : transformChunk parse b2 ((c2 :: rest2).flatten) with ⟨js2, r2⟩
      rw [hu] at h2
      have hD : runDecoder parse b2 (c2 :: rest2) =
          runDecoder parse b2 [(c2 :: rest2).flatten] := by
        rw [ih b2 c2]
        simp
      rw [runDecoder_cons_ok (c2 :: rest2) ht, hD]
      cases r2 with
      | error e =>
        rw [runDecoder_cons_error [] hu]
        rw [runDecoder_cons_error [] h2]
      | ok b3 =>
        rw [runDecoder_cons_ok [] hu]
        rw [runDecoder_cons_ok [] h2]
        simp

theorem runDecoder_join (parse : List Char → Except String Json)
    (chunks : List (List Char)) :
    runDecoder parse [] chunks = runDecoder parse [] [chunks.flatten] := by
  cases chunks with
  | nil => rfl
  | cons c rest =>
    rw [runDecoder_cons_join parse rest [] c]
    simp

theorem emitAllB_nil (parse : List Char → Except String Json)
    (ls : List (List Char)) (t : List Char) :
    emitAllB parse [] ls t = emitAll parse ls t := by
  cases ls with
  | nil => simp [emitAllB, emitAll]
  | cons l ls2 => simp [emitAllB, emitAll]

theorem runOut_cons (parse : List Char → Except String Json) (j : Json)
    (t : List Json × Except String (List Char)) :
    runOut parse (j :: t.1, t.2) = (j :: (runOut parse t).1, (runOut parse t).2) := by
  rcases t with ⟨js, r⟩
  cases r with
  | error e => simp [runOut]
  | ok b2 => simp [runOut]

theorem runOut_transformChunkF (parse : List Char → Except String Json) :
    ∀ (f : Nat) (s b : List Char), s.length < f →
      runOut parse (transformChunkF parse f b s) =
        emitAllB parse b (splitNlF f s).1 (splitNlF f s).2 := by
  intro f
  induction f with
  | zero => intro s b h; exact absurd h (Nat.not_lt_zero _)
  | succ g ih =>
    intro s b h
    rcases hb : breakNl s with ⟨p, o⟩
    cases o with
    | none =>
      simp only [transformChunkF, splitNlF, hb]
      simp [runOut, emitAllB]
    | some rest =>
      have hlen := breakNl_some_length hb
      simp only [transformChunkF, splitNlF, hb]
      cases hp : parse (b ++ p) with
      | error e => simp [runOut, emitAllB, hp]
      | ok j =>
        have hu := ih rest [] (by omega)
        rw [emitAllB_nil] at hu
        simp only [hp]
        rw [runOut_cons]
        rw [hu]
        simp [emitAllB, hp]

theorem runDecoder_single_lines (parse : List Char → Except String Json)
    (b s : List Char) :
    runDecoder parse b [s] = emitAllB parse b (splitNl s).1 (splitNl s).2 := by
  rw [runDecoder_single]
  unfold transformChunk splitNl
  exact runOut_transformChunkF parse (s.length + 1) s b (by omega)

theorem runDecoder_lines (parse : List Char → Except String Json)
    (chunks : List (List Char)) :
    runDecoder parse [] chunks =
      emitAll parse (splitNl chunks.flatten).1 (splitNl chunks.flatten).2 := by
  rw [runDecoder_join]
  rw [runDecoder_single_lines]
  rw [emitAllB_nil]

theorem emitAll_extend (parse : List Char → Except String Json) :
    ∀ (ls : List (List Char)) (js : List Json) (t : List Char),
      emitAll parse ls [] = (js, none) →
      emitAll parse ls t = (js ++ (flushDec parse t).1, (flushDec parse t).2) := by
  intro ls
  induction ls with
  | nil =>
    intro js t h
    simp [emitAll, flushDec] at h
    subst h
    simp [emitAll]
  | cons l ls2 ih =>
    intro js t h
    cases hp : parse l with
    | error e => simp [emitAll, hp] at h
    | ok j =>
      simp [emitAll, hp] at h
      have heq : emitAll parse ls2 [] = ((emitAll parse ls2 []).1, none) := by
        rw [← h.2]
      have hrec := ih (emitAll parse ls2 []).1 t heq
      simp [emitAll, hp, hrec, ← h.1]

theorem breakNl_none_no_nl {s p : List Char} (h : breakNl s = (p, none)) :
    ∀ c ∈ s, c ≠ '\n' := by
  induction s generalizing p with
  | nil => intro c hc; simp at hc
  | cons a as ih =>
    by_cases ha : a = '\n'
    · simp [breakNl, ha] at h
    · simp [breakNl, ha] at h
      intro c hc
      rcases List.mem_cons.mp hc with rfl | hc2
      · exact ha
      · exact ih (p := (breakNl as).1) (by rw [← h.2]) c hc2

theorem emitAll_append_error (parse : List Char → Except String Json) :
    ∀ (ls1 : List (List Char)) (js : List Json) (l0 : List Char)
      (ls2 : List (List Char)) (t : List Char) (e : String),
      emitAll parse ls1 [] = (js, none) → parse l0 = Except.error e →
      emitAll parse (ls1 ++ l0 :: ls2) t = (js, some e) := by
  intro ls1
  induction ls1 with
  | nil =>
    intro js l0 ls2 t e h hl
    simp [emitAll, flushDec] at h
    subst h
    simp [emitAll, hl]
  | cons l ls1 ih =>
    intro js l0 ls2 t e h hl
    cases hp : parse l with
    | error e2 => simp [emitAll, hp] at h
    | ok j =>
      simp [emitAll, hp] at h
      have heq : emitAll parse ls1 [] = ((emitAll parse ls1 []).1, none) := by
        rw [← h.2]
      have hrec := ih (emitAll parse ls1 []).1 l0 ls2 t e heq hl
      simp [emitAll, hp, hrec, ← h.1]

theorem emitAll_snd_error_of_fail (parse : List Char → Except String Json) :
    ∀ (ls1 : List (List Char)) (l0 : List Char) (ls2 : List (List Char))
      (t : List Char) (e : String),
      parse l0 = Except.error e →
      ∃ e2, (emitAll parse (ls1 ++ l0 :: ls2) t).2 = some e2 := by
  intro ls1
  induction ls1 with
  | nil =>
    intro l0 ls2 t e hl
    exact ⟨e, by simp [emitAll, hl]⟩
  | cons l ls1 ih =>
    intro l0 ls2 t e hl
    cases hp : parse l with
    | error e2 => exact ⟨e2, by simp [emitAll, hp]⟩
    | ok j =>
      obtain ⟨e2, he2⟩ := ih l0 ls2 t e hl
      exact ⟨e2, by simp [emitAll, hp, he2]⟩

theorem nil_mem_splitNlF :
    ∀ (f : Nat) (u v : List Char), (u ++ '\n' :: '\n' :: v).length < f →
      [] ∈ (splitNlF f (u ++ '\n' :: '\n' :: v)).1 := by
  intro f
  induction f with
  | zero => intro u v h; exact absurd h (Nat.not_lt_zero _)
  | succ g ih =>
    intro u v h
    rcases hb : breakNl u with ⟨p, o⟩
    cases o with
    | none =>
      have hnn := breakNl_none_no_nl hb
      have hb2 : breakNl (u ++ '\n' :: '\n' :: v) = (u, some ('\n' :: v)) :=
        breakNl_no_newline hnn ('\n' :: v)
      simp only [splitNlF, hb2]
      cases g with
      | zero =>
        simp only [List.length_append, List.length_cons] at h
        omega
      | succ g2 =>
        have hb3 : breakNl ('\n' :: v) = ([], some v) := by simp [breakNl]
        simp only [splitNlF, hb3]
        simp
    | some rest =>
      have hlen := breakNl_some_length hb
      have hb2 := breakNl_append_some ('\n' :: '\n' :: v) hb
      simp only [splitNlF, hb2]
      have hm := ih rest v
        (by simp only [List.length_append, List.length_cons] at h ⊢; omega)
      simp [hm]

theorem nil_mem_splitNl {w : List Char}
    (h : (∃ v, w = '\n' :: v) ∨ ∃ u v, w = u ++ '\n' :: '\n' :: v) :
    [] ∈ (splitNl w).1 := by
  rcases h with ⟨v, rfl⟩ | ⟨u, v, rfl⟩
  · unfold splitNl
    have hb : breakNl ('\n' :: v) = ([], some v) := by simp [breakNl]
    simp only [splitNlF, hb]
    simp
  · exact nil_mem_splitNlF _ u v (by omega)

theorem runDecoder_nil_line_error (chunks : List (List Char))
    (hmem : [] ∈ (splitNl chunks.flatten).1) :
    ∃ e, (runDecoder jsonParse [] chunks).2 = some e := by
  obtain ⟨ls1, ls2, hdec⟩ := List.append_of_mem hmem
  rw [runDecoder_lines, hdec]
  exact emitAll_snd_error_of_fail jsonParse ls1 [] ls2 _
    "Unexpected end of JSON input" rfl

/-! ### Claim theorems -/

/-- Claim C1: for every finite stream of newline-terminated JSON lines and
every way of splitting it into an ordered chunk sequence, the watch decoder
emits the identical ordered event sequence (including the terminating error,
if any) that it emits when all bytes arrive as one single chunk; in particular
any two-chunk split of the two-line ADDED/MODIFIED payload yields the same two
events as the single-chunk case. -/
theorem watch_decoder_chunk_independence :
    (∀ (parse : List Char → Except String Json) (chunks : List (List Char)),
        runDecoder parse [] chunks = runDecoder parse [] [chunks.flatten]) ∧
    (∀ i : Nat,
        runDecoder jsonParse []
            [watchTwoLinePayload.take i, watchTwoLinePayload.drop i] =
          runDecoder jsonParse [] [watchTwoLinePayload]) := by
  constructor
  · exact runDecoder_join
  · intro i
    rw [runDecoder_join jsonParse
      [watchTwoLinePayload.take i, watchTwoLinePayload.drop i]]
    simp

/-- Claim C4: the two-line ADDED/MODIFIED payload fed as one chunk yields
exactly those two events in order, and in general the decoder's output is the
in-order decoding of the newline-terminated lines of the byte stream (with the
unterminated tail flushed at stream end): no reordering. -/
theorem watch_decoder_order :
    (∀ (parse : List Char → Except String Json) (chunks : List (List Char)),
        runDecoder parse [] chunks =
          emitAll parse (splitNl chunks.flatten).1 (splitNl chunks.flatten).2) ∧
    runDecoder jsonParse [] [watchTwoLinePayload] = ([addedEvent, modifiedEvent], none) := by
  exact ⟨runDecoder_lines, by rfl⟩

/-- Claim C5: when the stream ends with a non-empty residual buffer (the final
bytes are not newline-terminated), the decoder decodes the buffered bytes and
emits them as exactly one final event before completing; in particular the
terminal DELETED chunk without trailing newline yields that event as a final
flush. -/
theorem watch_decoder_final_flush :
    (∀ (parse : List Char → Except String Json) (chunks : List (List Char))
        (ls : List (List Char)) (t : List Char) (js : List Json) (j : Json),
        splitNl chunks.flatten = (ls, t) → t ≠ [] →
        emitAll parse ls [] = (js, none) → parse t = Except.ok j →
        runDecoder parse [] chunks = (js ++ [j], none)) ∧
    runDecoder jsonParse [] [deletedPayload] = ([deletedEvent], none) := by
  constructor
  · intro parse chunks ls t js j hsplit ht hok hparse
    have hl := runDecoder_lines parse chunks
    rw [hsplit] at hl
    simp only at hl
    rw [hl, emitAll_extend parse ls js t hok]
    cases t with
    | nil => exact absurd rfl ht
    | cons a t2 => simp [flushDec, hparse]
  · rfl

/-- Claim C7: for every watch stream containing an empty line — an empty
entry anywhere in the stream's line decomposition, which is exactly a newline
at the start of the joined bytes or two consecutive newline bytes (a newline
arriving while the buffer is empty) — the decoder attempts `JSON.parse` on the
empty string, which fails, and the failure is fatal and never skipped: when
the lines before the empty line all decode, their events are emitted and the
stream then terminates with the empty-input parse error, emitting nothing
further (for any position of the empty line and any chunking); and
unconditionally, such a stream always terminates with a decode error. -/
theorem watch_decoder_empty_line_fatal :
    jsonParse [] = Except.error "Unexpected end of JSON input" ∧
    (∀ (chunks : List (List Char)) (ls1 ls2 : List (List Char)) (js : List Json),
        (splitNl chunks.flatten).1 = ls1 ++ [] :: ls2 →
        emitAll jsonParse ls1 [] = (js, none) →
        runDecoder jsonParse [] chunks = (js, some "Unexpected end of JSON input")) ∧
    (∀ (chunks : List (List Char)),
        [] ∈ (splitNl chunks.flatten).1 →
        ∃ e, (runDecoder jsonParse [] chunks).2 = some e) ∧
    (∀ (chunks : List (List Char)) (u v : List Char),
        chunks.flatten = '\n' :: v ∨ chunks.flatten = u ++ '\n' :: '\n' :: v →
        ∃ e, (runDecoder jsonParse [] chunks).2 = some e) := by
  refine ⟨rfl, ?_, ?_, ?_⟩
  · intro chunks ls1 ls2 js h1 h2
    rw [runDecoder_lines, h1]
    exact emitAll_append_error jsonParse ls1 js [] ls2 _
      "Unexpected end of JSON input" h2 rfl
  · exact runDecoder_nil_line_error
  · intro chunks u v hshape
    rcases hshape with h | h
    · exact runDecoder_nil_line_error chunks (nil_mem_splitNl (Or.inl ⟨v, h⟩))
    · exact runDecoder_nil_line_error chunks (nil_mem_splitNl (Or.inr ⟨u, v, h⟩))

/-- Claim C2: `calculateApiName` joins a separator-free non-empty group with a
non-empty version, returns the group alone when the version is absent, returns
the version for an empty group, the empty string when both are empty; for a
group already embedding a version, an explicitly given version overrides the
embedded one and an absent version leaves the group unchanged. -/
theorem calculateApiName_spec :
    ∀ (g vn : String),
      (strContainsChar g '/' = false → g ≠ "" → vn ≠ "" →
        calculateApiName g (some vn) = g ++ "/" ++ vn) ∧
      (strContainsChar g '/' = false → g ≠ "" →
        calculateApiName g none = g) ∧
      (calculateApiName "" (some vn) = vn) ∧
      (calculateApiName "" none = "") ∧
      (strContainsChar g '/' = true → vn ≠ "" →
        calculateApiName g (some vn) = strBeforeSlash g ++ "/" ++ vn) ∧
      (strContainsChar g '/' = true → calculateApiName g none = g) := by
  intro g vn
  have hcc : strContainsChar "" '/' = false := by decide
  refine ⟨?_, ?_, ?_, ?_, ?_, ?_⟩
  · intro h1 h2 h3
    simp [calculateApiName, h1, h2, h3]
  · intro h1 h2
    simp [calculateApiName, h1, h2]
  · by_cases hv : vn = ""
    · simp [calculateApiName, hcc, hv]
    · simp [calculateApiName, hcc, hv]
  · simp [calculateApiName, hcc]
  · intro h1 h3
    simp [calculateApiName, h1, h3]
  · intro h1
    simp [calculateApiName, h1]

/-- Witness for C2 at the specification's concrete pairs. -/
theorem calculateApiName_spec_witness :
    calculateApiName "foo" (some "v1") = "foo/v1" ∧
    calculateApiName "foo" none = "foo" ∧
    calculateApiName "" (some "v1") = "v1" ∧
    calculateApiName "" none = "" ∧
    calculateApiName "foo/v1" (some "v2") = "foo/v2" ∧
    calculateApiName "foo/v1" none = "foo/v1" := by
  refine ⟨?_, ?_, ?_, ?_, ?_, ?_⟩
  · exact ((calculateApiName_spec "foo" "v1").1 (by decide) (by decide)
      (by decide)).trans (by decide)
  · exact (calculateApiName_spec "foo" "v1").2.1 (by decide) (by decide)
  · exact (calculateApiName_spec "" "v1").2.2.1
  · exact (calculateApiName_spec "" "").2.2.2.1
  · exact ((calculateApiName_spec "foo/v1" "v2").2.2.2.2.1 (by decide)
      (by decide)).trans (by decide)
  · exact (calculateApiName_spec "foo/v1" "v2").2.2.2.2.2 (by decide)

/-- Claim C3: a structured body with kind `"Status"` and status `"Failure"`
is, under cooked interpretation, rejected with that very object (which carries
its own `message` attribute); under non-cooked interpretation (`rawResponse`
requested) the same body is never classified as a failure and is returned
unchanged. -/
theorem status_translator_cooked :
    ∀ (c : Int) (r : String) (j : Json),
      jsonGet j "kind" = some (Json.str "Status") →
      jsonGet j "status" = some (Json.str "Failure") →
      k8sClassify false c r (RespBody.jsonData j) = Except.error j ∧
        k8sClassify true c r (RespBody.jsonData j) = Except.ok (RespBody.jsonData j) := by
  intro c r j h1 h2
  constructor
  · simp [k8sClassify, isStrVal, h1, h2]
  · simp [k8sClassify]

/-- Witness for C3: the body `\x7bkind:"Status", status:"Failure",
message:"x"\x7d` yields a cooked failure carrying message `"x"` and a
non-cooked success equal to the body. -/
theorem status_translator_cooked_witness :
    k8sClassify false 400 "Bad Request" (RespBody.jsonData statusBodyX) =
        Except.error statusBodyX ∧
    jsonGet statusBodyX "message" = some (Json.str "x") ∧
    k8sClassify true 400 "Bad Request" (RespBody.jsonData statusBodyX) =
        Except.ok (RespBody.jsonData statusBodyX) :=
  ⟨(status_translator_cooked 400 "Bad Request" statusBodyX rfl rfl).1,
   rfl,
   (status_translator_cooked 400 "Bad Request" statusBodyX rfl rfl).2⟩

/-- Claim C6: a raw-text body under cooked interpretation synthesizes exactly
the Status-shaped failure with the response's status code, status text and the
body text as message; in particular a raw `"Unauthorized"` body with HTTP
status 401 yields a failure with code 401 and message `"Unauthorized"`. -/
theorem status_translator_raw_synthesis :
    ∀ (t : String) (c : Int) (r : String),
      k8sClassify false c r (RespBody.strData t) =
          Except.error (synthStatus c r t) ∧
      jsonGet (synthStatus c r t) "apiVersion" = some (Json.str "v1") ∧
      jsonGet (synthStatus c r t) "kind" = some (Json.str "Status") ∧
      jsonGet (synthStatus c r t) "status" = some (Json.str "Failure") ∧
      jsonGet (synthStatus c r t) "code" = some (Json.num c) ∧
      jsonGet (synthStatus c r t) "reason" = some (Json.str r) ∧
      jsonGet (synthStatus c r t) "message" = some (Json.str t) ∧
      jsonGet (synthStatus c r t) "metadata" = some (Json.obj []) ∧
      k8sClassify false 401 "Unauthorized" (RespBody.strData "Unauthorized") =
          Except.error (synthStatus 401 "Unauthorized" "Unauthorized") := by
  intro t c r
  exact ⟨rfl, rfl, rfl, rfl, rfl, rfl, rfl, rfl, rfl⟩

/-- Claim C8, amended: a namespaced descriptor with separator-free name is
never attached to the top-level surface by the builder dispatch (it is only
registered for namespaced exposure); for every namespace `x` the surface built
by `ns(x)` exposes the singleton factory under the lower-cased kind, and
exposes the collection handle under the lower-cased plural name whenever that
name differs from the lower-cased kind (when the two coincide the later,
kind-keyed factory of the same object literal shadows the collection
handle). -/
theorem resource_builder_namespaced :
    ∀ (r : ResourceDescriptor) (api : List (String × ApiEntry))
      (nsRes : List (String × ResourceDescriptor)) (x : String),
      r.namespaced = true → strContainsChar r.name '/' = false →
      apiBuildStep (api, nsRes) r = (api, jsSet nsRes r.name r) ∧
        createApiFromResources [r] = ([], [(r.name, r)]) ∧
        jsGet (nsApi [(r.name, r)] x) (strToLower r.kind) =
          some (ApiEntry.singletonFactory r ("namespaces/" ++ x)) ∧
        (strToLower r.name ≠ strToLower r.kind →
          jsGet (nsApi [(r.name, r)] x) (strToLower r.name) =
            some (ApiEntry.collectionHandle r ("namespaces/" ++ x))) := by
  intro r api nsRes x h1 h2
  refine ⟨?_, ?_, ?_, ?_⟩
  · simp [apiBuildStep, h1, h2]
  · simp [createApiFromResources, apiBuildStep, h1, h2, jsSet]
  · by_cases h3 : strToLower r.name = strToLower r.kind
    · simp [nsApi, jsAssign, createResourceAPI, jsSet, jsGet, h3]
    · simp [nsApi, jsAssign, createResourceAPI, jsSet, jsGet, h3]
  · intro h3
    simp [nsApi, jsAssign, createResourceAPI, jsSet, jsGet, h3]

/-- Counterexample for C8 as originally stated: the namespaced separator-free
descriptor endpoints/Endpoints has coinciding lower-cased plural name and
kind, and `ns("x")` does not expose its collection handle under the
lower-cased plural name — the kind-keyed singleton factory shadows it. -/
theorem resource_builder_namespaced_counterexample :
    endpointsDescriptor.namespaced = true ∧
    strContainsChar endpointsDescriptor.name '/' = false ∧
    createApiFromResources [endpointsDescriptor] =
        ([], [(endpointsDescriptor.name, endpointsDescriptor)]) ∧
    jsGet (nsApi [(endpointsDescriptor.name, endpointsDescriptor)] "x")
        (strToLower endpointsDescriptor.name) =
      some (ApiEntry.singletonFactory endpointsDescriptor ("namespaces/" ++ "x")) ∧
    jsGet (nsApi [(endpointsDescriptor.name, endpointsDescriptor)] "x")
        (strToLower endpointsDescriptor.name) ≠
      some (ApiEntry.collectionHandle endpointsDescriptor ("namespaces/" ++ "x")) := by
  refine ⟨rfl, by decide, by decide, by decide, by decide⟩

/-- Witness for C8 at the pods/Pod descriptor and namespace `"x"`. -/
theorem resource_builder_namespaced_witness :
    apiBuildStep ([], []) podsDescriptor =
        ([], jsSet [] podsDescriptor.name podsDescriptor) ∧
    jsGet (nsApi [(podsDescriptor.name, podsDescriptor)] "x")
        (strToLower podsDescriptor.kind) =
      some (ApiEntry.singletonFactory podsDescriptor ("namespaces/" ++ "x")) ∧
    jsGet (nsApi [(podsDescriptor.name, podsDescriptor)] "x")
        (strToLower podsDescriptor.name) =
      some (ApiEntry.collectionHandle podsDescriptor ("namespaces/" ++ "x")) :=
  ⟨(resource_builder_namespaced podsDescriptor [] [] "x" rfl (by decide)).1,
   (resource_builder_namespaced podsDescriptor [] [] "x" rfl (by decide)).2.2.1,
   (resource_builder_namespaced podsDescriptor [] [] "x" rfl (by decide)).2.2.2
     (by decide)⟩

/-- Claim C9: `patch(body, contentType, query)` issues a PATCH to the
singleton path with the `content-type` header set to exactly the selected
media kind; an object second argument is treated as the query with the
strategic-merge-patch default content type, which is also the default when
the argument is omitted. -/
theorem patch_content_type :
    ∀ (gp pfx rn nm : String) (body : Json) (s : String)
      (q qs : List (String × String)),
      patchCall gp pfx rn nm body (some (CtArg.ctStr s)) qs =
        { path := resourcePathFor gp pfx rn nm, method := "PATCH",
          contentTypeHeader := s, body := body, qs := qs } ∧
      patchCall gp pfx rn nm body (some (CtArg.qsObj q)) qs =
        { path := resourcePathFor gp pfx rn nm, method := "PATCH",
          contentTypeHeader := strategicMergePatchType, body := body, qs := q } ∧
      patchCall gp pfx rn nm body none qs =
        { path := resourcePathFor gp pfx rn nm, method := "PATCH",
          contentTypeHeader := strategicMergePatchType, body := body, qs := qs } := by
  intro gp pfx rn nm body s q qs
  exact ⟨rfl, rfl, rfl⟩

/-- Claim C10: when the lower-cased plural name equals the lower-cased kind,
the object literal built by `createResourceAPI` has a single entry under that
key and it is the singleton factory (the later, kind-keyed assignment of the
same literal overwrites the collection handle, which becomes unreachable). -/
theorem resourceAPI_kind_shadows_name :
    ∀ (r : ResourceDescriptor) (pfx : String),
      strToLower r.name = strToLower r.kind →
      createResourceAPI r pfx =
        [(strToLower r.name, ApiEntry.singletonFactory r pfx)] := by
  intro r pfx h
  simp [createResourceAPI, jsSet, ← h]

/-- Witness for C10 at the endpoints/Endpoints descriptor. -/
theorem resourceAPI_kind_shadows_name_witness :
    createResourceAPI endpointsDescriptor "" =
      [(strToLower endpointsDescriptor.name,
        ApiEntry.singletonFactory endpointsDescriptor "")] :=
  resourceAPI_kind_shadows_name endpointsDescriptor "" (by decide)

/-- Witness for C5: the DELETED payload as a terminal unterminated chunk. -/
theorem watch_decoder_final_flush_witness :
    runDecoder jsonParse [] [deletedPayload] = ([] ++ [deletedEvent], none) :=
  watch_decoder_final_flush.1 jsonParse [deletedPayload] [] deletedPayload []
    deletedEvent (by rfl) (by decide) (by rfl) (by rfl)

/-- Witness for C7: a two-chunk stream whose empty line is the third line and
straddles the chunk boundary; the two preceding events are emitted, then the
empty-input parse error terminates the stream and the fourth line is never
decoded. -/
theorem watch_decoder_empty_line_fatal_witness :
    runDecoder jsonParse []
        ["\x7b\x7d\n\x7b\"a\":1\x7d\n".toList, "\n\x7b\"b\":2\x7d\n".toList] =
      ([Json.obj [], Json.obj [("a", Json.num 1)]],
        some "Unexpected end of JSON input") :=
  watch_decoder_empty_line_fatal.2.1
    ["\x7b\x7d\n\x7b\"a\":1\x7d\n".toList, "\n\x7b\"b\":2\x7d\n".toList]
    ["\x7b\x7d".toList, "\x7b\"a\":1\x7d".toList]
    ["\x7b\"b\":2\x7d".toList]
    [Json.obj [], Json.obj [("a", Json.num 1)]]
    (by rfl) (by rfl)
